import Mathlib

/-!
A shallow embedding of the MoneyTracker local persistence and aggregation
layer: the SQLite schema created by `initializeDatabase` (src/App.tsx), the
category/expense repository operations of `ExpenseService`
(src/services/ExpenseService.ts), the date-window aggregation query
`getCategoryTotals`, and the zustand application-state caches
(src/unnamed/part_001), together with proofs of the specification claims.

Conventions of the embedding:
* A table is the list of its rows in rowid order (ids are `AUTOINCREMENT`
  and rows are only ever appended, so insertion order).
* `REAL` amounts are modelled as exact rationals; floating-point rounding is
  out of scope.
* `TEXT` comparison (`date >= ?`, `date < ?`, `ORDER BY date`) is SQLite
  binary comparison of UTF-8 bytes, which agrees with code-point
  lexicographic order, i.e. with `String`'s linear order.
* A statement SQLite would reject (UNIQUE or FOREIGN KEY violation, with
  `PRAGMA foreign_keys = ON` as set by `initializeDatabase`) is modelled as
  an `Except.error` returned next to the unchanged store.
* `ORDER BY` with ties is realised by a stable sort (`List.insertionSort`).
-/

namespace MoneyTracker

/-- A `categories` row: `id INTEGER PRIMARY KEY AUTOINCREMENT,
name TEXT NOT NULL UNIQUE, color TEXT NOT NULL`. -/
structure Category where
  id : Nat
  name : String
  color : String
  deriving DecidableEq, Repr

/-- An `expenses` row: `id INTEGER PRIMARY KEY AUTOINCREMENT,
amount REAL NOT NULL, category_id INTEGER NOT NULL, date TEXT NOT NULL,
notes TEXT, FOREIGN KEY (category_id) REFERENCES categories (id)
ON DELETE CASCADE`. -/
structure Expense where
  id : Nat
  amount : Rat
  categoryId : Nat
  date : String
  notes : Option String
  deriving DecidableEq, Repr

/-- A row of the aggregation result (`CategoryTotal` in
src/services/ExpenseService.ts). -/
structure CategoryTotal where
  categoryId : Nat
  categoryName : String
  color : String
  total : Rat
  deriving DecidableEq, Repr

/-- Error taxonomy of the storage layer (spec §7). -/
inductive StorageError where
  | constraintViolation
  | foreignKeyViolation
  | storageUnavailable
  deriving DecidableEq, Repr

/-- The persistent store: the two tables plus the `AUTOINCREMENT` counters. -/
structure DB where
  categories : List Category
  expenses : List Expense
  nextCategoryId : Nat
  nextExpenseId : Nat
  deriving DecidableEq, Repr

/-- A freshly created database file: both tables empty, ids start at 1. -/
def DB.empty : DB := ⟨[], [], 1, 1⟩

/-- Query `SELECT id, name, color FROM categories ORDER BY name ASC;`
(`ExpenseService.getCategories`). -/
def getCategories (db : DB) : List Category :=
  List.insertionSort (fun a b => a.name ≤ b.name) db.categories

/-- Statement `INSERT INTO categories (name, color) VALUES (?, ?);` with parameters
`[input.name.trim(), input.color]`, then `return { id, ...input }`
(`ExpenseService.addCategory`).  The `UNIQUE` constraint on `name` rejects
the insert when a row with the trimmed name already exists; the returned
object spreads the caller's input, so its `name` is the untrimmed one. -/
def addCategory (db : DB) (name color : String) : Except StorageError Category × DB :=
  let stored := name.trim
  if db.categories.any (fun c => c.name == stored) then
    (.error .constraintViolation, db)
  else
    let id := db.nextCategoryId
    (.ok { id := id, name := name, color := color },
     { db with
        categories := db.categories ++ [{ id := id, name := stored, color := color }],
        nextCategoryId := id + 1 })

/-- Statement `INSERT INTO expenses (amount, category_id, date, notes) VALUES (?, ?, ?, ?);`
then `return { id, ...input }` (`ExpenseService.addExpense`).  With
`PRAGMA foreign_keys = ON`, the insert is rejected when `category_id` does
not reference an existing category. -/
def addExpense (db : DB) (amount : Rat) (categoryId : Nat) (date : String)
    (notes : Option String) : Except StorageError Expense × DB :=
  if db.categories.any (fun c => c.id == categoryId) then
    let id := db.nextExpenseId
    (.ok { id := id, amount := amount, categoryId := categoryId, date := date, notes := notes },
     { db with
        expenses := db.expenses ++
          [{ id := id, amount := amount, categoryId := categoryId, date := date, notes := notes }],
        nextExpenseId := id + 1 })
  else
    (.error .foreignKeyViolation, db)

/-- Relation for `ORDER BY date DESC, id DESC`: `a` may be listed before `b`. -/
def expenseOrder (a b : Expense) : Prop :=
  b.date < a.date ∨ (a.date = b.date ∧ b.id ≤ a.id)

instance : DecidableRel expenseOrder := fun a b =>
  inferInstanceAs (Decidable (_ ∨ _))

/-- Query `SELECT id, amount, category_id as categoryId, date, notes FROM expenses
ORDER BY date DESC, id DESC;` (`ExpenseService.getAllExpenses`). -/
def getAllExpenses (db : DB) : List Expense :=
  List.insertionSort expenseOrder db.expenses

/-- The `WHERE date >= ? AND date < ?` window condition, lexicographic on the
stored ISO strings. -/
def inWindow (fromIso toIso : String) (e : Expense) : Bool :=
  decide (fromIso ≤ e.date) && decide (e.date < toIso)

/-- Query `SELECT ... FROM expenses WHERE date >= ? AND date < ?
ORDER BY date DESC, id DESC;` (`ExpenseService.getExpensesInDateRange`). -/
def getExpensesInDateRange (db : DB) (fromIso toIso : String) : List Expense :=
  List.insertionSort expenseOrder (db.expenses.filter (inWindow fromIso toIso))

/-- The expenses joined to category id `cid` by the `LEFT JOIN ... ON
e.category_id = c.id AND e.date >= ? AND e.date < ?` condition. -/
def matchRows (exps : List Expense) (fromIso toIso : String) (cid : Nat) : List Expense :=
  exps.filter (fun e => e.categoryId == cid && inWindow fromIso toIso e)

/-- The rows a single category contributes to the `LEFT JOIN`: one row per
matching expense, or a single `NULL`-padded row when none matches. -/
def blockOf (exps : List Expense) (fromIso toIso : String) (c : Category) :
    List (Category × Option Expense) :=
  let ms := matchRows exps fromIso toIso c.id
  if ms.isEmpty then [(c, none)] else ms.map (fun e => (c, some e))

/-- The row set of `FROM categories c LEFT JOIN expenses e ON ...`: every
category row paired with each matching expense, or with `NULL` (`none`) when
no expense matches. -/
def joinRows (cats : List Category) (exps : List Expense) (fromIso toIso : String) :
    List (Category × Option Expense) :=
  cats.flatMap (blockOf exps fromIso toIso)

/-- The distinct `GROUP BY c.id, c.name, c.color` keys of a joined row list,
in order of first appearance. -/
def sqlGroupKeys : List Category → List Category
  | [] => []
  | c :: rest => c :: sqlGroupKeys (rest.filter (fun x => decide (x ≠ c)))
termination_by l => l.length
decreasing_by
  exact Nat.lt_succ_of_le (List.length_filter_le _ _)

/-- The non-`NULL` `e.amount` operands of one group of the join. -/
def groupAmounts (rows : List (Category × Option Expense)) (c : Category) : List Rat :=
  (rows.filter (fun r => decide (r.1 = c))).filterMap (fun r => r.2.map (fun e => e.amount))

/-- SQL `SUM(e.amount)` over one group: `NULL` when every operand is `NULL`
(the left-joined no-match row), else the sum of the non-`NULL` operands. -/
def groupTotalOpt (rows : List (Category × Option Expense)) (c : Category) : Option Rat :=
  if (groupAmounts rows c).isEmpty then none else some (groupAmounts rows c).sum

/-- Relation for `ORDER BY total DESC` on the possibly-`NULL` sums; SQLite places `NULL`s
last in descending order (part_002 spells this out as `NULLS LAST`). -/
def nullsLastDesc : Option Rat → Option Rat → Prop
  | some x, some y => y ≤ x
  | some _, none => True
  | none, some _ => False
  | none, none => True

instance : DecidableRel nullsLastDesc := fun a b =>
  match a, b with
  | some x, some y => inferInstanceAs (Decidable (y ≤ x))
  | some _, none => .isTrue trivial
  | none, some _ => .isFalse (fun h => h)
  | none, none => .isTrue trivial

/-- Group-row order for `ORDER BY total DESC`. -/
def totalOrder (a b : Category × Option Rat) : Prop :=
  nullsLastDesc a.2 b.2

instance : DecidableRel totalOrder := fun a b =>
  inferInstanceAs (Decidable (nullsLastDesc a.2 b.2))

/-- Query `SELECT c.id, c.name, c.color, SUM(e.amount) as total FROM categories c
LEFT JOIN expenses e ON e.category_id = c.id AND e.date >= ? AND e.date < ?
GROUP BY c.id, c.name, c.color ORDER BY total DESC;` followed by the JS
mapping `total: Number(r.total ?? 0)` (`ExpenseService.getCategoryTotals`). -/
def getCategoryTotals (db : DB) (fromIso toIso : String) : List CategoryTotal :=
  let rows := joinRows db.categories db.expenses fromIso toIso
  let keys := sqlGroupKeys (rows.map Prod.fst)
  let grouped := keys.map (fun c => (c, groupTotalOpt rows c))
  (List.insertionSort totalOrder grouped).map
    (fun p => { categoryId := p.1.id, categoryName := p.1.name, color := p.1.color,
                total := p.2.getD 0 })

/-- Statement `DELETE FROM categories WHERE id = ?;` (standalone `deleteCategory`),
together with the schema's `ON DELETE CASCADE` on `expenses.category_id`
(active because `initializeDatabase` sets `PRAGMA foreign_keys = ON`):
dependent expense rows are removed by the same statement. -/
def deleteCategory (db : DB) (id : Nat) : DB :=
  { db with
      categories := db.categories.filter (fun c => decide (c.id ≠ id)),
      expenses := db.expenses.filter (fun e => decide (e.categoryId ≠ id)) }

/-- Statement `DELETE FROM expenses WHERE id = ?;` (standalone `deleteExpense`). -/
def deleteExpense (db : DB) (id : Nat) : DB :=
  { db with expenses := db.expenses.filter (fun e => decide (e.id ≠ id)) }

/-- The `ExpenseUpdateData` argument of `updateExpense`: the four values
bound to the `SET amount = ?, category_id = ?, date = ?, notes = ?`
parameters.  Every one of them is bound on every call. -/
structure ExpenseUpdateData where
  amount : Rat
  categoryId : Nat
  date : String
  notes : Option String
  deriving DecidableEq, Repr

/-- Statement `UPDATE expenses SET amount = ?, category_id = ?, date = ?, notes = ?
WHERE id = ?;` (standalone `updateExpense`): rewrites all four columns of
every row whose id matches, touches nothing else, and reports no error when
no row matches. -/
def updateExpense (db : DB) (id : Nat) (u : ExpenseUpdateData) : DB :=
  { db with
      expenses := db.expenses.map (fun e =>
        if e.id = id then
          { id := e.id, amount := u.amount, categoryId := u.categoryId,
            date := u.date, notes := u.notes }
        else e) }

/-- The fixed seed list of `initializeDatabase` (src/App.tsx). -/
def DEFAULT_CATEGORIES : List (String × String) :=
  [("Food", "#FF6B6B"), ("Transport", "#4D96FF"), ("Shopping", "#F2C94C"),
   ("Bills", "#9B51E0"), ("Entertainment", "#00BFA6"), ("Other", "#6C63FF")]

/-- One seed insert `INSERT INTO categories (name, color) VALUES (?, ?);`. -/
def insertCategoryRow (db : DB) (nc : String × String) : DB :=
  { db with
      categories := db.categories ++ [{ id := db.nextCategoryId, name := nc.1, color := nc.2 }],
      nextCategoryId := db.nextCategoryId + 1 }

/-- Function `initializeDatabase` (src/App.tsx): enables foreign keys, creates both
tables with `CREATE TABLE IF NOT EXISTS` (schema creation is a no-op on the
modelled state, which always carries both tables), then seeds the six
default categories inside one transaction — but only when
`SELECT COUNT(*) FROM categories` returns 0. -/
def initializeDatabase (db : DB) : DB :=
  if db.categories.length = 0 then DEFAULT_CATEGORIES.foldl insertCategoryRow db else db

/-- The zustand cache of the fallback store variant (src/unnamed/part_001,
first store): just the two loaded collections. -/
structure CacheState where
  categories : List Category
  expenses : List Expense
  deriving DecidableEq, Repr

/-- zustand initial state `{ categories: [], expenses: [] }`. -/
def CacheState.initial : CacheState := ⟨[], []⟩

/-- Function `loadInitialData` of the fallback store variant: on success both
collections are replaced by the query results; on any failure the `catch`
block runs `set({ categories: [], expenses: [] })`.  The outcome of the two
`SELECT`s is passed in explicitly. -/
def loadInitialData (outcome : Except StorageError (List Category × List Expense))
    (_prev : CacheState) : CacheState :=
  match outcome with
  | .ok (cs, es) => { categories := cs, expenses := es }
  | .error _ => { categories := [], expenses := [] }

/-- The zustand cache of the richer store variant (src/unnamed/part_001,
second store): collections, loading flag, and the two cached aggregate
sets. -/
structure RichCacheState where
  categories : List Category
  expenses : List Expense
  isLoading : Bool
  thisMonthTotals : List CategoryTotal
  lastMonthTotals : List CategoryTotal
  deriving DecidableEq, Repr

/-- zustand initial state of the richer variant. -/
def RichCacheState.initial : RichCacheState := ⟨[], [], false, [], []⟩

/-- Function `loadInitialData` of the richer store variant:
`set({ isLoading: true })`, then inside a `try` with no `catch`:
`Promise.all` of the two collection queries, `set({ categories, expenses })`,
then `await get().refreshAggregates()` (two `getCategoryTotals` queries that
replace the cached aggregate sets); `finally` runs `set({ isLoading: false })`.
Every await can fail, so the run is staged: when the collection load fails
nothing was set and the collections stay as they were; when it succeeds the
collections are set to the loaded data even if the subsequent aggregate
refresh fails, in which case the old aggregates remain. -/
def loadInitialDataRich (collections : Except StorageError (List Category × List Expense))
    (aggregates : Except StorageError (List CategoryTotal × List CategoryTotal))
    (prev : RichCacheState) : RichCacheState :=
  match collections with
  | .error _ => { prev with isLoading := false }
  | .ok (cs, es) =>
      match aggregates with
      | .error _ => { prev with categories := cs, expenses := es, isLoading := false }
      | .ok (a1, a2) =>
          { prev with categories := cs, expenses := es, isLoading := false,
                      thisMonthTotals := a1, lastMonthTotals := a2 }

/-- Predicate: this run of the richer variant's `loadInitialData` rejects —
either a collection query throws, or they succeed and the aggregate refresh
throws after the collections were already set. -/
def richLoadFails (collections : Except StorageError (List Category × List Expense))
    (aggregates : Except StorageError (List CategoryTotal × List CategoryTotal)) : Prop :=
  match collections with
  | .error _ => True
  | .ok _ =>
      match aggregates with
      | .error _ => True
      | .ok _ => False

/-- Function `addExpense` of the richer store variant: insert through the service,
then optimistically prepend the returned object —
`set((s) => ({ expenses: [created, ...s.expenses] }))`; on an insert failure
the state is untouched (the error is thrown before any `set`). -/
def addExpenseCached (db : DB) (prev : RichCacheState) (amount : Rat) (categoryId : Nat)
    (date : String) (notes : Option String) :
    Except StorageError Expense × DB × RichCacheState :=
  match addExpense db amount categoryId date notes with
  | (.ok created, db') => (.ok created, db', { prev with expenses := created :: prev.expenses })
  | (.error er, db') => (.error er, db', prev)

/-- The spec's formula for one aggregation cell: the sum of `amount` over the
expenses of category `cid` whose `date` lies in `[fromIso, toIso)`. -/
def totalFor (exps : List Expense) (fromIso toIso : String) (cid : Nat) : Rat :=
  ((matchRows exps fromIso toIso cid).map (fun e => e.amount)).sum

/-- The sum of `amount` over all expenses whose `date` lies in
`[fromIso, toIso)`. -/
def windowSum (exps : List Expense) (fromIso toIso : String) : Rat :=
  ((exps.filter (inWindow fromIso toIso)).map (fun e => e.amount)).sum

/-! ### The `ORDER BY` relations are total preorders -/

instance : IsTotal Expense expenseOrder :=
  ⟨fun a b => by
    unfold expenseOrder
    rcases lt_trichotomy a.date b.date with h | h | h
    · exact Or.inr (Or.inl h)
    · rcases Nat.le_total a.id b.id with hid | hid
      · exact Or.inr (Or.inr ⟨h.symm, hid⟩)
      · exact Or.inl (Or.inr ⟨h, hid⟩)
    · exact Or.inl (Or.inl h)⟩

instance : IsTrans Expense expenseOrder :=
  ⟨fun a b c hab hbc => by
    unfold expenseOrder at hab hbc ⊢
    rcases hab with hab | ⟨hd, hi⟩
    · rcases hbc with hbc | ⟨hd', _⟩
      · exact Or.inl (lt_trans hbc hab)
      · exact Or.inl (by rw [← hd']; exact hab)
    · rcases hbc with hbc | ⟨hd', hi'⟩
      · exact Or.inl (by rw [hd]; exact hbc)
      · exact Or.inr ⟨hd.trans hd', le_trans hi' hi⟩⟩

instance : IsTotal (Category × Option Rat) totalOrder :=
  ⟨fun a b => by
    obtain ⟨a1, _ | x⟩ := a <;> obtain ⟨b1, _ | y⟩ := b
    · exact Or.inl trivial
    · exact Or.inr trivial
    · exact Or.inl trivial
    · rcases le_total y x with h | h
      · exact Or.inl h
      · exact Or.inr h⟩

instance : IsTrans (Category × Option Rat) totalOrder :=
  ⟨fun a b c hab hbc => by
    obtain ⟨a1, _ | x⟩ := a <;> obtain ⟨b1, _ | y⟩ := b <;> obtain ⟨c1, _ | z⟩ := c <;>
      first
        | trivial
        | exact (show False from hab).elim
        | exact (show False from hbc).elim
        | exact le_trans hbc hab⟩

/-! ### Sum helpers -/

lemma sum_map_add {α : Type} (l : List α) (f g : α → Rat) :
    (l.map (fun x => f x + g x)).sum = (l.map f).sum + (l.map g).sum := by
  induction l with
  | nil => simp
  | cons x xs ih => simp only [List.map_cons, List.sum_cons, ih]; ring

lemma sum_map_zero {α : Type} (l : List α) :
    (l.map (fun _ => (0 : Rat))).sum = 0 := by
  induction l with
  | nil => simp
  | cons x xs ih => simp [ih]

lemma sum_map_ite_id (ids : List Nat) (k : Nat) (v : Rat)
    (hnd : ids.Nodup) (hk : k ∈ ids) :
    (ids.map (fun i => if k = i then v else 0)).sum = v := by
  induction ids with
  | nil => cases hk
  | cons i is ih =>
    rcases List.nodup_cons.mp hnd with ⟨hni, hnd'⟩
    by_cases h : k = i
    · subst h
      simp only [List.map_cons, List.sum_cons]
      have hz : ∀ j ∈ is, (if k = j then v else 0) = 0 := by
        intro j hj
        have hne : k ≠ j := by rintro rfl; exact hni hj
        exact if_neg hne
      rw [List.map_congr_left hz, sum_map_zero, add_zero]
      simp
    · have hk' : k ∈ is := by
        rcases List.mem_cons.mp hk with h' | h'
        · exact absurd h' h
        · exact h'
      simp only [List.map_cons, List.sum_cons, if_neg h, zero_add]
      exact ih hnd' hk'

/-! ### The window predicate and per-category totals -/

lemma inWindow_iff (f t : String) (e : Expense) :
    inWindow f t e = true ↔ f ≤ e.date ∧ e.date < t := by
  simp [inWindow]

lemma totalFor_cons (e : Expense) (exps : List Expense) (f t : String) (cid : Nat) :
    totalFor (e :: exps) f t cid =
      (if e.categoryId = cid ∧ inWindow f t e = true then e.amount else 0) +
        totalFor exps f t cid := by
  unfold totalFor matchRows
  rw [List.filter_cons]
  by_cases h : (e.categoryId == cid && inWindow f t e) = true
  · rw [if_pos h, List.map_cons, List.sum_cons]
    have h' : e.categoryId = cid ∧ inWindow f t e = true := by simpa using h
    rw [if_pos h']
  · rw [if_neg h]
    have h' : ¬(e.categoryId = cid ∧ inWindow f t e = true) := by simpa using h
    rw [if_neg h', zero_add]

lemma windowSum_cons (e : Expense) (exps : List Expense) (f t : String) :
    windowSum (e :: exps) f t =
      (if inWindow f t e = true then e.amount else 0) + windowSum exps f t := by
  unfold windowSum
  rw [List.filter_cons]
  by_cases h : inWindow f t e = true
  · rw [if_pos h, if_pos h, List.map_cons, List.sum_cons]
  · rw [if_neg h, if_neg h, zero_add]

/-- Summing the per-category window totals over a duplicate-free category
list accounts for every in-window expense exactly once, provided every
expense references an existing category. -/
lemma sum_totalFor_eq_windowSum (cats : List Category) (exps : List Expense) (f t : String)
    (hnd : (cats.map (fun c => c.id)).Nodup)
    (hfk : ∀ e ∈ exps, e.categoryId ∈ cats.map (fun c => c.id)) :
    (cats.map (fun c => totalFor exps f t c.id)).sum = windowSum exps f t := by
  induction exps with
  | nil =>
    have hz : ∀ c ∈ cats, totalFor [] f t c.id = 0 := fun c _ => rfl
    rw [List.map_congr_left hz, sum_map_zero]
    rfl
  | cons e exps ih =>
    have hfk' : ∀ e' ∈ exps, e'.categoryId ∈ cats.map (fun c => c.id) :=
      fun e' he' => hfk e' (List.mem_cons_of_mem _ he')
    have hmem : e.categoryId ∈ cats.map (fun c => c.id) := hfk e (List.mem_cons_self _ _)
    have hsplit : ∀ c ∈ cats, totalFor (e :: exps) f t c.id =
        (if e.categoryId = c.id ∧ inWindow f t e = true then e.amount else 0) +
          totalFor exps f t c.id :=
      fun c _ => totalFor_cons e exps f t c.id
    rw [List.map_congr_left hsplit, sum_map_add, ih hfk', windowSum_cons]
    congr 1
    by_cases hw : inWindow f t e = true
    · have hdrop : ∀ c ∈ cats,
          (if e.categoryId = c.id ∧ inWindow f t e = true then e.amount else 0) =
            (if e.categoryId = c.id then e.amount else 0) := by
        intro c _
        by_cases hc : e.categoryId = c.id
        · rw [if_pos ⟨hc, hw⟩, if_pos hc]
        · rw [if_neg (fun hh => hc hh.1), if_neg hc]
      rw [List.map_congr_left hdrop, if_pos hw]
      have hmm : (cats.map (fun c => if e.categoryId = c.id then e.amount else 0)).sum =
          ((cats.map (fun c => c.id)).map (fun i => if e.categoryId = i then e.amount else 0)).sum := by
        rw [List.map_map]
        rfl
      rw [hmm, sum_map_ite_id _ _ _ hnd hmem]
    · have hz : ∀ c ∈ cats,
          (if e.categoryId = c.id ∧ inWindow f t e = true then e.amount else 0) = 0 :=
        fun c _ => if_neg (fun hh => hw hh.2)
      rw [List.map_congr_left hz, sum_map_zero, if_neg hw]

/-! ### Structure of the left join and of the grouping -/

lemma blockOf_ne_nil (exps : List Expense) (f t : String) (c : Category) :
    blockOf exps f t c ≠ [] := by
  unfold blockOf
  by_cases h : (matchRows exps f t c.id).isEmpty = true
  · simp [h]
  · rw [if_neg h]
    have hne : matchRows exps f t c.id ≠ [] := by
      simpa [List.isEmpty_iff] using h
    simpa using hne

lemma fst_of_mem_blockOf {exps : List Expense} {f t : String} {c : Category}
    {r : Category × Option Expense} (h : r ∈ blockOf exps f t c) : r.1 = c := by
  unfold blockOf at h
  by_cases hm : (matchRows exps f t c.id).isEmpty = true
  · rw [if_pos hm] at h
    rw [List.mem_singleton.mp h]
  · rw [if_neg hm] at h
    rcases List.mem_map.mp h with ⟨e, _, rfl⟩
    rfl

lemma blockOf_amounts (exps : List Expense) (f t : String) (c : Category) :
    (blockOf exps f t c).filterMap (fun r => r.2.map (fun e => e.amount)) =
      (matchRows exps f t c.id).map (fun e => e.amount) := by
  unfold blockOf
  by_cases hm : (matchRows exps f t c.id).isEmpty = true
  · have hnil : matchRows exps f t c.id = [] := by simpa [List.isEmpty_iff] using hm
    rw [if_pos hm, hnil]
    rfl
  · rw [if_neg hm]
    have key : ∀ ms : List Expense,
        (ms.map (fun e => (c, some e))).filterMap (fun r => r.2.map (fun e => e.amount)) =
          ms.map (fun e => e.amount) := by
      intro ms
      induction ms with
      | nil => rfl
      | cons x xs ih => simp [List.filterMap_cons, ih]
    exact key _

lemma sqlGroupKeys_cons (c : Category) (rest : List Category) :
    sqlGroupKeys (c :: rest) = c :: sqlGroupKeys (rest.filter (fun x => decide (x ≠ c))) := by
  rw [sqlGroupKeys]

lemma sqlGroupKeys_eq_self : ∀ {l : List Category}, l.Nodup → sqlGroupKeys l = l := by
  intro l
  induction l using sqlGroupKeys.induct with
  | case1 => intro _; rw [sqlGroupKeys]
  | case2 c rest ih =>
    intro h
    rcases List.nodup_cons.mp h with ⟨hc, hrest⟩
    have hf : rest.filter (fun x => decide (x ≠ c)) = rest := by
      apply List.filter_eq_self.mpr
      intro x hx
      simp only [decide_eq_true_eq]
      rintro rfl
      exact hc hx
    rw [hf] at ih
    rw [sqlGroupKeys_cons, hf, ih hrest]

lemma filter_flatMap_pure (k : Category → List Category) (c : Category)
    (hpure : ∀ c', ∀ x ∈ k c', x = c') :
    ∀ l : List Category,
      (l.flatMap k).filter (fun x => decide (x ≠ c)) =
        (l.filter (fun x => decide (x ≠ c))).flatMap k := by
  intro l
  induction l with
  | nil => simp
  | cons c' rest ih =>
    rw [List.flatMap_cons, List.filter_append]
    by_cases h : c' = c
    · subst h
      rw [List.filter_cons_of_neg (by simp),
          List.filter_eq_nil_iff.mpr (fun y hy => by simp [hpure c' y hy]),
          List.nil_append, ih]
    · rw [List.filter_cons_of_pos (by simp [h]), List.flatMap_cons,
          List.filter_eq_self.mpr (fun y hy => by simp [hpure c' y hy, h]), ih]

lemma sqlGroupKeys_flatMap_pure (k : Category → List Category)
    (hne : ∀ c, k c ≠ []) (hpure : ∀ c, ∀ x ∈ k c, x = c) :
    ∀ l : List Category, sqlGroupKeys (l.flatMap k) = sqlGroupKeys l := by
  intro l
  induction l using sqlGroupKeys.induct with
  | case1 => rw [List.flatMap_nil]
  | case2 c rest ih =>
    obtain ⟨x, tl, hk⟩ := List.exists_cons_of_ne_nil (hne c)
    have hx : x = c := hpure c x (by rw [hk]; exact List.mem_cons_self _ _)
    subst hx
    have htl : ∀ y ∈ tl, y = x := fun y hy => hpure x y (by rw [hk]; exact List.mem_cons_of_mem _ hy)
    rw [List.flatMap_cons, hk, List.cons_append, sqlGroupKeys_cons, sqlGroupKeys_cons]
    congr 1
    rw [List.filter_append,
        List.filter_eq_nil_iff.mpr (fun y hy => by simp [htl y hy]),
        List.nil_append, filter_flatMap_pure k x hpure rest, ih]

lemma map_fst_joinRows (cats : List Category) (exps : List Expense) (f t : String) :
    (joinRows cats exps f t).map Prod.fst =
      cats.flatMap (fun c => (blockOf exps f t c).map Prod.fst) := by
  unfold joinRows
  rw [List.map_flatMap]

lemma sqlGroupKeys_joinRows (cats : List Category) (exps : List Expense) (f t : String)
    (hnd : cats.Nodup) :
    sqlGroupKeys ((joinRows cats exps f t).map Prod.fst) = cats := by
  rw [map_fst_joinRows]
  have hne : ∀ c, (blockOf exps f t c).map Prod.fst ≠ [] := by
    intro c
    simpa using blockOf_ne_nil exps f t c
  have hpure : ∀ c, ∀ x ∈ (blockOf exps f t c).map Prod.fst, x = c := by
    intro c x hx
    rcases List.mem_map.mp hx with ⟨r, hr, rfl⟩
    exact fst_of_mem_blockOf hr
  rw [sqlGroupKeys_flatMap_pure _ hne hpure cats, sqlGroupKeys_eq_self hnd]

lemma filter_flatMap_blockOf (exps : List Expense) (f t : String) (c : Category) :
    ∀ cats : List Category, cats.Nodup → c ∈ cats →
      (cats.flatMap (blockOf exps f t)).filter (fun r => decide (r.1 = c)) =
        blockOf exps f t c := by
  intro cats
  induction cats with
  | nil => intro _ hc; cases hc
  | cons c' rest ih =>
    intro hnd hc
    rcases List.nodup_cons.mp hnd with ⟨hni, hnd'⟩
    rw [List.flatMap_cons, List.filter_append]
    by_cases h : c' = c
    · subst h
      have h1 : (blockOf exps f t c').filter (fun r => decide (r.1 = c')) =
          blockOf exps f t c' :=
        List.filter_eq_self.mpr (fun r hr => by simp [fst_of_mem_blockOf hr])
      have h2 : (rest.flatMap (blockOf exps f t)).filter (fun r => decide (r.1 = c')) = [] := by
        apply List.filter_eq_nil_iff.mpr
        intro r hr
        rcases List.mem_flatMap.mp hr with ⟨c'', hc'', hr''⟩
        simp only [decide_eq_true_eq, fst_of_mem_blockOf hr'']
        rintro rfl
        exact hni hc''
      rw [h1, h2, List.append_nil]
    · have hc' : c ∈ rest := by
        rcases List.mem_cons.mp hc with h' | h'
        · exact absurd h'.symm h
        · exact h'
      have h1 : (blockOf exps f t c').filter (fun r => decide (r.1 = c)) = [] :=
        List.filter_eq_nil_iff.mpr (fun r hr => by
          simp only [decide_eq_true_eq, fst_of_mem_blockOf hr]
          exact h)
      rw [h1, List.nil_append]
      exact ih hnd' hc'

lemma groupAmounts_joinRows (cats : List Category) (exps : List Expense) (f t : String)
    {c : Category} (hnd : cats.Nodup) (hc : c ∈ cats) :
    groupAmounts (joinRows cats exps f t) c =
      (matchRows exps f t c.id).map (fun e => e.amount) := by
  unfold groupAmounts joinRows
  rw [filter_flatMap_blockOf exps f t c cats hnd hc, blockOf_amounts]

lemma getD_groupTotalOpt (rows : List (Category × Option Expense)) (c : Category) :
    (groupTotalOpt rows c).getD 0 = (groupAmounts rows c).sum := by
  unfold groupTotalOpt
  by_cases h : (groupAmounts rows c).isEmpty = true
  · have hnil : groupAmounts rows c = [] := by simpa [List.isEmpty_iff] using h
    rw [if_pos h, hnil]
    rfl
  · rw [if_neg h]
    rfl

/-- The aggregation row the spec describes for category `c`. -/
def toTotalRow (exps : List Expense) (f t : String) (c : Category) : CategoryTotal :=
  { categoryId := c.id, categoryName := c.name, color := c.color,
    total := totalFor exps f t c.id }

/-- Under the schema's primary-key invariant (duplicate-free category ids),
`getCategoryTotals` is a permutation of one spec row per stored category. -/
lemma getCategoryTotals_perm (db : DB) (f t : String)
    (hnd : (db.categories.map (fun c => c.id)).Nodup) :
    (getCategoryTotals db f t).Perm (db.categories.map (toTotalRow db.expenses f t)) := by
  have hndc : db.categories.Nodup := List.Nodup.of_map _ hnd
  unfold getCategoryTotals
  dsimp only
  rw [sqlGroupKeys_joinRows db.categories db.expenses f t hndc]
  refine ((List.perm_insertionSort totalOrder _).map _).trans ?_
  rw [List.map_map]
  have hcong : ∀ c ∈ db.categories,
      ((fun p : Category × Option Rat =>
          ({ categoryId := p.1.id, categoryName := p.1.name, color := p.1.color,
             total := p.2.getD 0 } : CategoryTotal)) ∘
        (fun c => (c, groupTotalOpt (joinRows db.categories db.expenses f t) c))) c =
        toTotalRow db.expenses f t c := by
    intro c hc
    show ({ categoryId := c.id, categoryName := c.name, color := c.color,
            total := (groupTotalOpt (joinRows db.categories db.expenses f t) c).getD 0 } :
          CategoryTotal) = _
    unfold toTotalRow
    rw [getD_groupTotalOpt, groupAmounts_joinRows db.categories db.expenses f t hndc hc]
    rfl
  rw [List.map_congr_left hcong]

/-- The grand total of `getCategoryTotals` is the window sum of all expenses,
given the primary-key and foreign-key invariants. -/
lemma sum_getCategoryTotals (db : DB) (f t : String)
    (hnd : (db.categories.map (fun c => c.id)).Nodup)
    (hfk : ∀ e ∈ db.expenses, e.categoryId ∈ db.categories.map (fun c => c.id)) :
    ((getCategoryTotals db f t).map (fun r => r.total)).sum = windowSum db.expenses f t := by
  have hperm := (getCategoryTotals_perm db f t hnd).map (fun r => r.total)
  rw [hperm.sum_eq, List.map_map]
  have hcong : ∀ c ∈ db.categories,
      ((fun r : CategoryTotal => r.total) ∘ toTotalRow db.expenses f t) c =
        totalFor db.expenses f t c.id := fun c _ => rfl
  rw [List.map_congr_left hcong]
  exact sum_totalFor_eq_windowSum db.categories db.expenses f t hnd hfk

/-! ### Characterisations of the repository operations -/

lemma mem_range_iff (db : DB) (f t : String) (e : Expense) :
    e ∈ getExpensesInDateRange db f t ↔ e ∈ db.expenses ∧ f ≤ e.date ∧ e.date < t := by
  unfold getExpensesInDateRange
  rw [(List.perm_insertionSort expenseOrder _).mem_iff, List.mem_filter, inWindow_iff]

lemma flatMap_congr_left {α β : Type} {l : List α} {f g : α → List β}
    (h : ∀ a ∈ l, f a = g a) : l.flatMap f = l.flatMap g := by
  induction l with
  | nil => rfl
  | cons x xs ih =>
    rw [List.flatMap_cons, List.flatMap_cons, h x (List.mem_cons_self _ _),
        ih fun a ha => h a (List.mem_cons_of_mem _ ha)]

lemma blockOf_cons_not_window {f t : String} {e : Expense} (h : inWindow f t e = false)
    (exps : List Expense) (c : Category) :
    blockOf (e :: exps) f t c = blockOf exps f t c := by
  unfold blockOf matchRows
  rw [List.filter_cons_of_neg (by simp [h])]

lemma getCategoryTotals_cons_not_window (db : DB) (e : Expense) (f t : String)
    (h : inWindow f t e = false) :
    getCategoryTotals { db with expenses := e :: db.expenses } f t =
      getCategoryTotals db f t := by
  have hjoin : joinRows db.categories (e :: db.expenses) f t =
      joinRows db.categories db.expenses f t :=
    flatMap_congr_left fun c _ => blockOf_cons_not_window h db.expenses c
  unfold getCategoryTotals
  dsimp only
  rw [hjoin]

lemma getAllExpenses_sorted (db : DB) :
    (getAllExpenses db).Pairwise
      (fun a b => b.date ≤ a.date ∧ (a.date = b.date → b.id ≤ a.id)) := by
  have hs := List.sorted_insertionSort expenseOrder db.expenses
  refine List.Pairwise.imp ?_ hs
  intro a b hab
  rcases hab with h | ⟨h1, h2⟩
  · exact ⟨le_of_lt h, fun he => absurd (he ▸ h) (lt_irrefl _)⟩
  · exact ⟨le_of_eq h1.symm, fun _ => h2⟩

lemma addCategory_fail (db : DB) {name : String} (color : String)
    (hdup : ∃ c ∈ db.categories, c.name = name.trim) :
    addCategory db name color = (.error .constraintViolation, db) := by
  unfold addCategory
  dsimp only
  rw [if_pos]
  rcases hdup with ⟨c, hc, hn⟩
  exact List.any_eq_true.mpr ⟨c, hc, by simp [hn]⟩

lemma addCategory_success (db : DB) {name : String} (color : String)
    (hfree : ∀ c ∈ db.categories, c.name ≠ name.trim) :
    addCategory db name color =
      (.ok { id := db.nextCategoryId, name := name, color := color },
       { db with
          categories := db.categories ++
            [{ id := db.nextCategoryId, name := name.trim, color := color }],
          nextCategoryId := db.nextCategoryId + 1 }) := by
  unfold addCategory
  dsimp only
  rw [if_neg]
  intro h
  rcases List.any_eq_true.mp h with ⟨c, hc, hbeq⟩
  exact hfree c hc (by simpa using hbeq)

lemma length_filter_not (l : List Expense) (cid : Nat) :
    (l.filter (fun e => decide (e.categoryId ≠ cid))).length =
      l.length - (l.filter (fun e => decide (e.categoryId = cid))).length := by
  induction l with
  | nil => rfl
  | cons e rest ih =>
    by_cases h : e.categoryId = cid
    · rw [List.filter_cons_of_neg (by simp [h]), List.filter_cons_of_pos (by simp [h])]
      have hle := List.length_filter_le (fun e => decide (e.categoryId = cid)) rest
      simp only [List.length_cons]
      omega
    · rw [List.filter_cons_of_pos (by simp [h]), List.filter_cons_of_neg (by simp [h])]
      have hle := List.length_filter_le (fun e => decide (e.categoryId = cid)) rest
      simp only [List.length_cons]
      omega

/-! ### Concrete `String.trim` evaluations (the aux recursions are
well-founded and do not reduce definitionally, so we step them by hand) -/

lemma takeWhile_coffee :
    Substring.takeWhileAux " Coffee " ⟨8⟩ Char.isWhitespace ⟨0⟩ = ⟨1⟩ := by
  rw [Substring.takeWhileAux, dif_pos (by decide), if_pos (by decide)]
  show Substring.takeWhileAux " Coffee " ⟨8⟩ Char.isWhitespace ⟨1⟩ = ⟨1⟩
  rw [Substring.takeWhileAux, dif_pos (by decide), if_neg (by decide)]

lemma takeRightWhile_coffee :
    Substring.takeRightWhileAux " Coffee " ⟨1⟩ Char.isWhitespace ⟨8⟩ = ⟨7⟩ := by
  rw [Substring.takeRightWhileAux, dif_pos (by decide), if_neg (by decide)]
  show Substring.takeRightWhileAux " Coffee " ⟨1⟩ Char.isWhitespace ⟨7⟩ = ⟨7⟩
  rw [Substring.takeRightWhileAux, dif_pos (by decide), if_pos (by decide)]

lemma trim_coffee : (" Coffee " : String).trim = "Coffee" := by
  show (Substring.toString
    ⟨" Coffee ", Substring.takeWhileAux " Coffee " ⟨8⟩ Char.isWhitespace ⟨0⟩,
      Substring.takeRightWhileAux " Coffee "
        (Substring.takeWhileAux " Coffee " ⟨8⟩ Char.isWhitespace ⟨0⟩)
        Char.isWhitespace ⟨8⟩⟩) = "Coffee"
  rw [takeWhile_coffee, takeRightWhile_coffee]
  decide

lemma takeWhile_food :
    Substring.takeWhileAux " Food " ⟨6⟩ Char.isWhitespace ⟨0⟩ = ⟨1⟩ := by
  rw [Substring.takeWhileAux, dif_pos (by decide), if_pos (by decide)]
  show Substring.takeWhileAux " Food " ⟨6⟩ Char.isWhitespace ⟨1⟩ = ⟨1⟩
  rw [Substring.takeWhileAux, dif_pos (by decide), if_neg (by decide)]

lemma takeRightWhile_food :
    Substring.takeRightWhileAux " Food " ⟨1⟩ Char.isWhitespace ⟨6⟩ = ⟨5⟩ := by
  rw [Substring.takeRightWhileAux, dif_pos (by decide), if_neg (by decide)]
  show Substring.takeRightWhileAux " Food " ⟨1⟩ Char.isWhitespace ⟨5⟩ = ⟨5⟩
  rw [Substring.takeRightWhileAux, dif_pos (by decide), if_pos (by decide)]

lemma trim_food : (" Food " : String).trim = "Food" := by
  show (Substring.toString
    ⟨" Food ", Substring.takeWhileAux " Food " ⟨6⟩ Char.isWhitespace ⟨0⟩,
      Substring.takeRightWhileAux " Food "
        (Substring.takeWhileAux " Food " ⟨6⟩ Char.isWhitespace ⟨0⟩)
        Char.isWhitespace ⟨6⟩⟩) = "Food"
  rw [takeWhile_food, takeRightWhile_food]
  decide

/-! ## The claims -/

/-- Claim C1: for every store satisfying the schema invariants (category ids
are primary-key unique, every expense's `categoryId` references an existing
category) and every window `[fromIso, toIso)`, `getCategoryTotals` returns
exactly one entry per existing category — including categories with no
matching expense, whose total is 0 — and the sum of all returned totals
equals the sum of `amount` over all expenses whose date lies in the
window. -/
theorem c1_aggregation_completeness (db : DB) (fromIso toIso : String)
    (hids : (db.categories.map (fun c => c.id)).Nodup)
    (hfk : ∀ e ∈ db.expenses, e.categoryId ∈ db.categories.map (fun c => c.id)) :
    (getCategoryTotals db fromIso toIso).length = db.categories.length
    ∧ (∀ c ∈ db.categories, ∃ r ∈ getCategoryTotals db fromIso toIso,
        r.categoryId = c.id ∧ r.total = totalFor db.expenses fromIso toIso c.id)
    ∧ (∀ c ∈ db.categories, matchRows db.expenses fromIso toIso c.id = [] →
        ∃ r ∈ getCategoryTotals db fromIso toIso, r.categoryId = c.id ∧ r.total = 0)
    ∧ ((getCategoryTotals db fromIso toIso).map (fun r => r.categoryId)).Perm
        (db.categories.map (fun c => c.id))
    ∧ ((getCategoryTotals db fromIso toIso).map (fun r => r.total)).sum
        = windowSum db.expenses fromIso toIso := by
  have hperm := getCategoryTotals_perm db fromIso toIso hids
  refine ⟨?_, ?_, ?_, ?_, ?_⟩
  · rw [hperm.length_eq, List.length_map]
  · intro c hc
    refine ⟨toTotalRow db.expenses fromIso toIso c, ?_, rfl, rfl⟩
    rw [hperm.mem_iff]
    exact List.mem_map_of_mem _ hc
  · intro c hc hmatch
    refine ⟨toTotalRow db.expenses fromIso toIso c, ?_, rfl, ?_⟩
    · rw [hperm.mem_iff]
      exact List.mem_map_of_mem _ hc
    · show totalFor db.expenses fromIso toIso c.id = 0
      unfold totalFor
      rw [hmatch]
      rfl
  · refine (hperm.map (fun r => r.categoryId)).trans ?_
    rw [List.map_map]
    exact List.Perm.refl _
  · exact sum_getCategoryTotals db fromIso toIso hids hfk

/-- Seeded store with one January expense, as in the spec §8 example. -/
def sampleDB : DB :=
  (addExpense (initializeDatabase DB.empty) 45 1 "2025-01-10T12:00:00.000Z" (some "lunch")).2

/-- Witness for C1 at the seeded sample store. -/
theorem c1_aggregation_completeness_witness :
    ((sampleDB.categories.map (fun c => c.id)).Nodup
      ∧ ∀ e ∈ sampleDB.expenses, e.categoryId ∈ sampleDB.categories.map (fun c => c.id))
    ∧ (getCategoryTotals sampleDB "2025-01-01T00:00:00.000Z" "2025-02-01T00:00:00.000Z").length
        = sampleDB.categories.length :=
  ⟨⟨by decide, by decide⟩,
   (c1_aggregation_completeness sampleDB "2025-01-01T00:00:00.000Z" "2025-02-01T00:00:00.000Z"
      (by decide) (by decide)).1⟩

/-- Claim C2: over every window `[fromIso, toIso)`, membership in
`getExpensesInDateRange` is exactly `date >= fromIso AND date < toIso` under
lexicographic string comparison; an expense dated exactly `toIso` is excluded
from the range listing and contributes nothing to `getCategoryTotals`, while
one dated exactly `fromIso` is included in the listing and adds its amount to
the aggregate total. -/
theorem c2_half_open_range (db : DB) (fromIso toIso : String) (e : Expense) :
    (e ∈ getExpensesInDateRange db fromIso toIso ↔
        e ∈ db.expenses ∧ fromIso ≤ e.date ∧ e.date < toIso)
    ∧ (e.date = toIso → e ∉ getExpensesInDateRange db fromIso toIso)
    ∧ (e.date = fromIso → e ∈ db.expenses → fromIso < toIso →
        e ∈ getExpensesInDateRange db fromIso toIso)
    ∧ (e.date = toIso →
        getCategoryTotals { db with expenses := e :: db.expenses } fromIso toIso =
          getCategoryTotals db fromIso toIso)
    ∧ (e.date = fromIso → fromIso < toIso →
        (db.categories.map (fun c => c.id)).Nodup →
        (∀ e' ∈ e :: db.expenses, e'.categoryId ∈ db.categories.map (fun c => c.id)) →
        ((getCategoryTotals { db with expenses := e :: db.expenses } fromIso toIso).map
            (fun r => r.total)).sum =
          e.amount + ((getCategoryTotals db fromIso toIso).map (fun r => r.total)).sum) := by
  refine ⟨mem_range_iff db fromIso toIso e, ?_, ?_, ?_, ?_⟩
  · intro ht hmem
    rcases (mem_range_iff db fromIso toIso e).mp hmem with ⟨_, _, hlt⟩
    rw [ht] at hlt
    exact lt_irrefl _ hlt
  · intro hf hmem hft
    exact (mem_range_iff db fromIso toIso e).mpr
      ⟨hmem, le_of_eq hf.symm, by rw [hf]; exact hft⟩
  · intro ht
    apply getCategoryTotals_cons_not_window
    unfold inWindow
    simp [ht]
  · intro hf hft hnd hfk
    have hw : inWindow fromIso toIso e = true := by
      rw [inWindow_iff]
      exact ⟨le_of_eq hf.symm, by rw [hf]; exact hft⟩
    have hfk' : ∀ e' ∈ db.expenses, e'.categoryId ∈ db.categories.map (fun c => c.id) :=
      fun e' he' => hfk e' (List.mem_cons_of_mem _ he')
    have h1 := sum_getCategoryTotals { db with expenses := e :: db.expenses } fromIso toIso hnd hfk
    have h2 := sum_getCategoryTotals db fromIso toIso hnd hfk'
    rw [h1, h2]
    show windowSum (e :: db.expenses) fromIso toIso = _
    rw [windowSum_cons, if_pos hw]

/-- One-category store whose single expense is dated exactly at the lower
window bound. -/
def c2db : DB :=
  ⟨[⟨1, "Food", "#FF6B6B"⟩], [⟨1, 45, 1, "2025-01-01T00:00:00.000Z", none⟩], 2, 2⟩

/-- An expense dated exactly at the upper window bound. -/
def c2exp : Expense := ⟨2, 5, 1, "2025-02-01T00:00:00.000Z", none⟩

/-- Witness for C2: the `toIso`-dated expense is excluded, the
`fromIso`-dated one included. -/
theorem c2_half_open_range_witness :
    c2exp ∉ getExpensesInDateRange c2db "2025-01-01T00:00:00.000Z" "2025-02-01T00:00:00.000Z"
    ∧ (⟨1, 45, 1, "2025-01-01T00:00:00.000Z", none⟩ : Expense) ∈
        getExpensesInDateRange c2db "2025-01-01T00:00:00.000Z" "2025-02-01T00:00:00.000Z" :=
  ⟨(c2_half_open_range c2db "2025-01-01T00:00:00.000Z" "2025-02-01T00:00:00.000Z" c2exp).2.1 rfl,
   (c2_half_open_range c2db "2025-01-01T00:00:00.000Z" "2025-02-01T00:00:00.000Z" _).2.2.1 rfl
     (by decide) (by rw [String.lt_iff_toList_lt]; decide)⟩

/-- Claim C6: `getAllExpenses` lists the stored expenses, reordered so that
dates are non-increasing and, among equal dates, ids are non-increasing. -/
theorem c6_list_all_ordering (db : DB) :
    (getAllExpenses db).Perm db.expenses
    ∧ (getAllExpenses db).Pairwise
        (fun a b => b.date ≤ a.date ∧ (a.date = b.date → b.id ≤ a.id)) :=
  ⟨List.perm_insertionSort expenseOrder db.expenses, getAllExpenses_sorted db⟩

instance {ε α : Type} [DecidableEq ε] [DecidableEq α] : DecidableEq (Except ε α) := fun a b =>
  match a, b with
  | .ok x, .ok y =>
      if h : x = y then .isTrue (by rw [h]) else .isFalse fun he => h (Except.ok.inj he)
  | .error x, .error y =>
      if h : x = y then .isTrue (by rw [h]) else .isFalse fun he => h (Except.error.inj he)
  | .ok _, .error _ => .isFalse fun he => Except.noConfusion he
  | .error _, .ok _ => .isFalse fun he => Except.noConfusion he

/-- Claim C3: deleting a category removes it together with exactly its
dependent expenses (those whose `categoryId` equals its id) — the cascade —
and every expense of any other category survives unchanged. -/
theorem c3_cascade_delete (db : DB) (cid : Nat) :
    ((deleteCategory db cid).expenses.length =
        db.expenses.length -
          (db.expenses.filter (fun e => decide (e.categoryId = cid))).length)
    ∧ (∀ c ∈ (deleteCategory db cid).categories, c.id ≠ cid)
    ∧ (∀ c ∈ db.categories, c.id ≠ cid → c ∈ (deleteCategory db cid).categories)
    ∧ (∀ e ∈ db.expenses, e.categoryId ≠ cid → e ∈ (deleteCategory db cid).expenses)
    ∧ (∀ e ∈ (deleteCategory db cid).expenses, e ∈ db.expenses ∧ e.categoryId ≠ cid) := by
  refine ⟨length_filter_not db.expenses cid, ?_, ?_, ?_, ?_⟩
  · intro c hc
    have h := (List.mem_filter.mp hc).2
    simpa using h
  · intro c hc hne
    exact List.mem_filter.mpr ⟨hc, by simpa using hne⟩
  · intro e he hne
    exact List.mem_filter.mpr ⟨he, by simpa using hne⟩
  · intro e he
    have h := List.mem_filter.mp he
    exact ⟨h.1, by simpa using h.2⟩

/-- Two-category store with three expenses, two of them dependent on
category 1. -/
def c3db : DB :=
  ⟨[⟨1, "Food", "#FF6B6B"⟩, ⟨2, "Transport", "#4D96FF"⟩],
   [⟨1, 10, 1, "2025-01-01T00:00:00.000Z", none⟩,
    ⟨2, 20, 2, "2025-01-02T00:00:00.000Z", none⟩,
    ⟨3, 30, 1, "2025-01-03T00:00:00.000Z", none⟩], 3, 4⟩

/-- Witness for C3: category 2's expense survives the deletion of
category 1, and the two dependents are gone. -/
theorem c3_cascade_delete_witness :
    (⟨2, 20, 2, "2025-01-02T00:00:00.000Z", none⟩ : Expense) ∈
        (deleteCategory c3db 1).expenses
    ∧ (deleteCategory c3db 1).expenses.length =
        c3db.expenses.length -
          (c3db.expenses.filter (fun e => decide (e.categoryId = 1))).length :=
  ⟨(c3_cascade_delete c3db 1).2.2.2.1 ⟨2, 20, 2, "2025-01-02T00:00:00.000Z", none⟩
      (by decide) (by decide),
   (c3_cascade_delete c3db 1).1⟩

/-- Claim C4: `addCategory` trims the supplied name before storage; when a
category with the same trimmed name already exists the call fails with
`ConstraintViolation` and the store is unchanged, while a distinct trimmed
name succeeds and the new category is retrievable afterwards. -/
theorem c4_category_uniqueness (db : DB) (name color : String) :
    ((∃ c ∈ db.categories, c.name = name.trim) →
        addCategory db name color = (.error .constraintViolation, db))
    ∧ ((∀ c ∈ db.categories, c.name ≠ name.trim) →
        (addCategory db name color).1 =
            .ok { id := db.nextCategoryId, name := name, color := color }
          ∧ ∃ c ∈ getCategories (addCategory db name color).2,
              c.id = db.nextCategoryId ∧ c.name = name.trim ∧ c.color = color) := by
  constructor
  · exact addCategory_fail db color
  · intro hfree
    rw [addCategory_success db color hfree]
    refine ⟨rfl, ⟨db.nextCategoryId, name.trim, color⟩, ?_, rfl, rfl, rfl⟩
    unfold getCategories
    rw [(List.perm_insertionSort _ _).mem_iff]
    simp

/-- Witness for C4 at the seeded store: re-adding `" Food "` (which trims to
the existing `"Food"`) is rejected with the store unchanged, while adding
`" Coffee "` succeeds. -/
theorem c4_category_uniqueness_witness :
    addCategory (initializeDatabase DB.empty) " Food " "#000000" =
        (.error .constraintViolation, initializeDatabase DB.empty)
    ∧ (addCategory (initializeDatabase DB.empty) " Coffee " "#123456").1 =
        .ok { id := 7, name := " Coffee ", color := "#123456" } :=
  ⟨(c4_category_uniqueness (initializeDatabase DB.empty) " Food " "#000000").1
      ⟨⟨1, "Food", "#FF6B6B"⟩, by decide, by rw [trim_food]⟩,
   ((c4_category_uniqueness (initializeDatabase DB.empty) " Coffee " "#123456").2
      (by rw [trim_coffee]; decide)).1⟩

/-- Claim C5: `initializeDatabase` is idempotent with respect to seeding:
from an empty store the six default categories are inserted exactly once,
the category count after a second call equals the count after the first,
and the seed fires only when the category table is empty. -/
theorem c5_seed_idempotence (db : DB) :
    initializeDatabase (initializeDatabase db) = initializeDatabase db
    ∧ (initializeDatabase DB.empty).categories.map (fun c => (c.name, c.color)) =
        DEFAULT_CATEGORIES
    ∧ (initializeDatabase (initializeDatabase DB.empty)).categories.length =
        (initializeDatabase DB.empty).categories.length
    ∧ (db.categories ≠ [] → initializeDatabase db = db) := by
  have hlen : ∀ d : DB,
      (DEFAULT_CATEGORIES.foldl insertCategoryRow d).categories.length =
        d.categories.length + 6 := by
    intro d
    simp [DEFAULT_CATEGORIES, insertCategoryRow]
  have hnonempty : ∀ d : DB, d.categories ≠ [] → initializeDatabase d = d := by
    intro d hd
    unfold initializeDatabase
    rw [if_neg]
    intro h
    exact hd (List.length_eq_zero.mp h)
  have hidem : ∀ d : DB, initializeDatabase (initializeDatabase d) = initializeDatabase d := by
    intro d
    by_cases h : d.categories.length = 0
    · have h6 : (initializeDatabase d).categories.length = 6 := by
        unfold initializeDatabase
        rw [if_pos h, hlen d, h]
      apply hnonempty
      intro hnil
      rw [hnil] at h6
      simp at h6
    · have hd : initializeDatabase d = d :=
        hnonempty d fun hnil => h (by rw [hnil]; rfl)
      rw [hd]
      exact hd
  exact ⟨hidem db, rfl, by rw [hidem DB.empty], hnonempty db⟩

/-- Witness for C5: the seeded store is non-empty, so the second call is a
no-op. -/
theorem c5_seed_idempotence_witness :
    (initializeDatabase DB.empty).categories ≠ []
    ∧ initializeDatabase (initializeDatabase DB.empty) = initializeDatabase DB.empty :=
  ⟨by decide,
   (c5_seed_idempotence (initializeDatabase DB.empty)).2.2.2 (by decide)⟩

/-- Claim C7: `updateExpense` rewrites all four columns (`amount`,
`category_id`, `date`, `notes`) of the row whose id matches — there is no
partial-field patching distinct from full overwrite — and when no row has
that id the call completes without error and leaves every expense
unchanged. -/
theorem c7_update_full_overwrite (db : DB) (i : Nat) (u : ExpenseUpdateData) :
    ((∀ e ∈ db.expenses, e.id ≠ i) → updateExpense db i u = db)
    ∧ (updateExpense db i u).categories = db.categories
    ∧ (∀ e ∈ db.expenses, e.id ≠ i → e ∈ (updateExpense db i u).expenses)
    ∧ (∀ e ∈ db.expenses, e.id = i →
        ({ id := i, amount := u.amount, categoryId := u.categoryId,
           date := u.date, notes := u.notes } : Expense) ∈ (updateExpense db i u).expenses)
    ∧ (∀ e' ∈ (updateExpense db i u).expenses,
        (e' ∈ db.expenses ∧ e'.id ≠ i) ∨
          (e'.id = i ∧ e'.amount = u.amount ∧ e'.categoryId = u.categoryId ∧
            e'.date = u.date ∧ e'.notes = u.notes)) := by
  refine ⟨?_, rfl, ?_, ?_, ?_⟩
  · intro hno
    unfold updateExpense
    have hid : ∀ e ∈ db.expenses,
        (if e.id = i then
          ({ id := e.id, amount := u.amount, categoryId := u.categoryId,
             date := u.date, notes := u.notes } : Expense)
        else e) = e := fun e he => if_neg (hno e he)
    have hmapid : db.expenses.map (fun a => a) = db.expenses := by simp
    rw [List.map_congr_left hid, hmapid]
  · intro e he hne
    exact List.mem_map.mpr ⟨e, he, if_neg hne⟩
  · intro e he hid
    exact List.mem_map.mpr ⟨e, he, by rw [if_pos hid, hid]⟩
  · intro e' he'
    rcases List.mem_map.mp he' with ⟨e, he, hmap⟩
    by_cases h : e.id = i
    · rw [if_pos h] at hmap
      subst hmap
      exact Or.inr ⟨h, rfl, rfl, rfl, rfl⟩
    · rw [if_neg h] at hmap
      subst hmap
      exact Or.inl ⟨he, h⟩

/-- Witness for C7: updating a missing id (9) leaves `c3db` unchanged; the
matching row of an update of id 2 is fully rewritten. -/
theorem c7_update_full_overwrite_witness :
    updateExpense c3db 9 ⟨99, 2, "2030-01-01T00:00:00.000Z", some "x"⟩ = c3db
    ∧ ({ id := 2, amount := 99, categoryId := 1, date := "2030-01-01T00:00:00.000Z",
          notes := some "x" } : Expense) ∈
        (updateExpense c3db 2 ⟨99, 1, "2030-01-01T00:00:00.000Z", some "x"⟩).expenses :=
  ⟨(c7_update_full_overwrite c3db 9 ⟨99, 2, "2030-01-01T00:00:00.000Z", some "x"⟩).1
      (by decide),
   (c7_update_full_overwrite c3db 2 ⟨99, 1, "2030-01-01T00:00:00.000Z", some "x"⟩).2.2.2.1
      ⟨2, 20, 2, "2025-01-02T00:00:00.000Z", none⟩ (by decide) (by decide)⟩

/-- Claim C8 as stated is false for the richer store variant: a run in which
the collection queries succeed but the subsequent aggregate refresh fails is
a failed initial load, yet the cache then holds the freshly loaded non-empty
collections rather than being reset to empty. -/
theorem c8_reset_counterexample :
    richLoadFails
        (.ok ([⟨1, "Food", "#FF6B6B"⟩], [⟨1, 45, 1, "2025-01-10T12:00:00.000Z", none⟩]))
        (.error .storageUnavailable)
    ∧ (loadInitialDataRich
        (.ok ([⟨1, "Food", "#FF6B6B"⟩], [⟨1, 45, 1, "2025-01-10T12:00:00.000Z", none⟩]))
        (.error .storageUnavailable) RichCacheState.initial).categories ≠ []
    ∧ (loadInitialDataRich
        (.ok ([⟨1, "Food", "#FF6B6B"⟩], [⟨1, 45, 1, "2025-01-10T12:00:00.000Z", none⟩]))
        (.error .storageUnavailable) RichCacheState.initial).expenses ≠ [] :=
  ⟨trivial, by decide, by decide⟩

/-- Claim C8 (amended): when the initial load fails, the fallback store
variant resets the cache to empty collections whatever the previous state
was; the richer variant leaves the collections as they stood at the failure
point — still the initial empty collections when a collection query fails,
but the freshly loaded collections when the failure occurs in the aggregate
refresh after `set({ categories, expenses })` already ran (the stale
aggregates then remain) — and in every case only the loading flag is
reset. -/
theorem c8_initial_load_failure_resets (prev : CacheState) (prevR : RichCacheState)
    (err err' : StorageError)
    (ag : Except StorageError (List CategoryTotal × List CategoryTotal))
    (cs : List Category) (es : List Expense) :
    (loadInitialData (.error err) prev).categories = []
    ∧ (loadInitialData (.error err) prev).expenses = []
    ∧ loadInitialDataRich (.error err) ag RichCacheState.initial = RichCacheState.initial
    ∧ (loadInitialDataRich (.error err) ag prevR).categories = prevR.categories
    ∧ (loadInitialDataRich (.error err) ag prevR).expenses = prevR.expenses
    ∧ (loadInitialDataRich (.ok (cs, es)) (.error err') prevR).categories = cs
    ∧ (loadInitialDataRich (.ok (cs, es)) (.error err') prevR).expenses = es
    ∧ (loadInitialDataRich (.ok (cs, es)) (.error err') prevR).thisMonthTotals =
        prevR.thisMonthTotals
    ∧ (loadInitialDataRich (.ok (cs, es)) (.error err') prevR).lastMonthTotals =
        prevR.lastMonthTotals :=
  ⟨rfl, rfl, rfl, rfl, rfl, rfl, rfl, rfl, rfl⟩

/-- Claim C9: `addCategory` stores the trimmed name but returns the caller's
input spread with the assigned id, so for a name with surrounding
whitespace the returned `Category`'s name differs from the name
`getCategories` subsequently reports for that same id. -/
theorem c9_returned_name_not_round_trip (db : DB) (name color : String)
    (hws : name.trim ≠ name)
    (hfree : ∀ c ∈ db.categories, c.name ≠ name.trim) :
    ∃ ret, (addCategory db name color).1 = .ok ret ∧ ret.name = name ∧
      ∃ c ∈ getCategories (addCategory db name color).2,
        c.id = ret.id ∧ c.name = name.trim ∧ c.name ≠ ret.name := by
  rw [addCategory_success db color hfree]
  refine ⟨_, rfl, rfl, ⟨db.nextCategoryId, name.trim, color⟩, ?_, rfl, rfl, hws⟩
  unfold getCategories
  rw [(List.perm_insertionSort _ _).mem_iff]
  simp

/-- Witness for C9 with the whitespace-padded name `" Coffee "` on the
seeded store. -/
theorem c9_returned_name_not_round_trip_witness :
    (" Coffee " : String).trim ≠ " Coffee "
    ∧ ∃ ret, (addCategory (initializeDatabase DB.empty) " Coffee " "#123456").1 = .ok ret ∧
        ret.name = " Coffee " ∧
        ∃ c ∈ getCategories (addCategory (initializeDatabase DB.empty) " Coffee " "#123456").2,
          c.id = ret.id ∧ c.name = (" Coffee " : String).trim ∧ c.name ≠ ret.name :=
  ⟨by rw [trim_coffee]; decide,
   c9_returned_name_not_round_trip (initializeDatabase DB.empty) " Coffee " "#123456"
     (by rw [trim_coffee]; decide) (by rw [trim_coffee]; decide)⟩

/-- One-category store holding one February expense. -/
def c10db : DB :=
  (addExpense ⟨[⟨1, "Food", "#FF6B6B"⟩], [], 2, 1⟩ 10 1 "2025-02-01T00:00:00.000Z" none).2

/-- The richer store's cache after a full load of `c10db`. -/
def c10cache : RichCacheState :=
  { categories := getCategories c10db, expenses := getAllExpenses c10db, isLoading := false,
    thisMonthTotals := [], lastMonthTotals := [] }

/-- Optimistically adding a January expense on top of the cached February
one. -/
def c10step : Except StorageError Expense × DB × RichCacheState :=
  addExpenseCached c10db c10cache 5 1 "2025-01-01T00:00:00.000Z" none

/-- Claim C10: the optimistic `addExpense` always places the created expense
at index 0 of the cached list regardless of its date, so a backdated insert
leaves the cache out of date-descending order until the next full reload
(which is sorted again). -/
theorem c10_optimistic_prepend_unsorted :
    (∀ (db : DB) (prev : RichCacheState) (amount : Rat) (categoryId : Nat) (date : String)
        (notes : Option String) (created : Expense) (db' : DB) (s' : RichCacheState),
      addExpenseCached db prev amount categoryId date notes = (.ok created, db', s') →
        s'.expenses.head? = some created ∧ created.date = date)
    ∧ ¬ (c10step.2.2.expenses.Pairwise fun a b => b.date ≤ a.date)
    ∧ ((getAllExpenses c10step.2.1).Pairwise fun a b => b.date ≤ a.date) := by
  refine ⟨?_, ?_, ?_⟩
  · intro db prev amount categoryId date notes created db' s' h
    unfold addExpenseCached addExpense at h
    by_cases hc : (db.categories.any fun c => c.id == categoryId) = true
    · rw [if_pos hc] at h
      simp only [Prod.mk.injEq] at h
      obtain ⟨h1, _, h3⟩ := h
      injection h1 with h1
      subst h1
      subst h3
      exact ⟨rfl, rfl⟩
    · rw [if_neg hc] at h
      simp at h
  · show ¬ (([⟨2, 5, 1, "2025-01-01T00:00:00.000Z", none⟩,
        ⟨1, 10, 1, "2025-02-01T00:00:00.000Z", none⟩] : List Expense).Pairwise
          fun a b => b.date ≤ a.date)
    intro h
    have hle := List.rel_of_pairwise_cons h (List.mem_singleton.mpr rfl)
    rw [String.le_iff_toList_le] at hle
    revert hle
    decide
  · refine List.Pairwise.imp ?_ (getAllExpenses_sorted c10step.2.1)
    exact fun h => h.1

/-- Witness for C10: the concrete optimistic step succeeds and puts the new
January expense in front of the cached February one. -/
theorem c10_optimistic_prepend_unsorted_witness :
    addExpenseCached c10db c10cache 5 1 "2025-01-01T00:00:00.000Z" none =
        (.ok ⟨2, 5, 1, "2025-01-01T00:00:00.000Z", none⟩, c10step.2.1, c10step.2.2)
    ∧ c10step.2.2.expenses.head? = some ⟨2, 5, 1, "2025-01-01T00:00:00.000Z", none⟩ :=
  ⟨by decide,
   (c10_optimistic_prepend_unsorted.1 c10db c10cache 5 1 "2025-01-01T00:00:00.000Z" none
      ⟨2, 5, 1, "2025-01-01T00:00:00.000Z", none⟩ c10step.2.1 c10step.2.2 (by decide)).1⟩

end MoneyTracker
